import Mathlib

/-
Verification of the simple-RSS plugin core against its design document.

The Python sources are shallowly embedded:
  - strings are Lean strings (lists of Unicode scalar values, like Python
    code points); Python integers are Int, positions and lengths are Nat;
  - Python dicts (which preserve insertion order) are association lists,
    with assignment modelled by dictInsert (replace in place, else append);
  - the sqlite tables written by DataHandler are modelled as lists of rows
    appended in insertion order (rowid order = list order, since every
    persist deletes all rows first);
  - Python "str.strip" is modelled over the ASCII whitespace characters
    (plus the C1/Latin-1 whitespace code points Python also strips);
    regex case-insensitivity is modelled as ASCII case folding.
-/

/-! ### Python string helpers -/

/-- Characters removed by Python str.strip() with no argument (ASCII and
Latin-1 part of the Unicode whitespace class). -/
def isPySpace (c : Char) : Bool :=
  c == ' ' || c == '\t' || c == '\n' || c == '\r' || c == '\x0b' || c == '\x0c' ||
  (0x1c ≤ c.toNat && c.toNat ≤ 0x1f) || c.toNat == 0x85 || c.toNat == 0xa0

/-- Python str.strip() on a list of code points. -/
def pyStripList (l : List Char) : List Char :=
  ((l.dropWhile isPySpace).reverse.dropWhile isPySpace).reverse

/-- Python str.strip() on a string. -/
def pyStrip (s : String) : String :=
  ⟨pyStripList s.data⟩

/-- Python s[:n] slicing by code points. -/
def takeChars (n : Nat) (s : String) : String :=
  ⟨s.data.take n⟩

/-- ASCII lower-casing of one character (enough for the http/https scheme
letters this code lower-cases). -/
def asciiLowerChar (c : Char) : Char :=
  if 'A' ≤ c ∧ c ≤ 'Z' then Char.ofNat (c.toNat + 32) else c

/-! ### src/rss.py : RSSItem and its identity -/

/-- One parsed feed entry (src/rss.py RSSItem). -/
structure RSSItem where
  title : String
  link : String
  summary : String
  published : String
  published_ts : Int
deriving DecidableEq

/-- RSSItem.uid (src/rss.py lines 12-17): the trimmed link when non-empty,
otherwise "title|published|summary[:48]". -/
def uid (item : RSSItem) : String :=
  if pyStrip item.link ≠ "" then pyStrip item.link
  else item.title ++ "|" ++ item.published ++ "|" ++ takeChars 48 item.summary

/-! ### Subscription state and the checkpoint / dedup engine (src/main.py) -/

/-- The per-(feed, channel) subscription dict. -/
structure Subscription where
  cron_expr : String
  last_update : Int
  recent_ids : List String
deriving DecidableEq

/-- SimpleRSSPlugin._collect_new_items (src/main.py lines 456-471):
keeps an item iff its uid is not among the non-empty stored recent ids and
its timestamp is not (non-zero and below the checkpoint). -/
def collect_new_items (items : List RSSItem) (sub : Subscription) : List RSSItem :=
  let recentIdSet := sub.recent_ids.filter (fun x => x != "")
  let last_update := sub.last_update
  items.filter (fun item =>
    !(decide (uid item ∈ recentIdSet)) &&
    !(decide (item.published_ts ≠ 0) && decide (item.published_ts < last_update)))

/-- The merged-uid loop of _update_subscription_checkpoint (and, applied to
stripped input, DataHandler._normalize_recent_ids): keep each value that is
non-empty and not already emitted, in first-occurrence order.  The seen
argument is the list of values emitted so far. -/
def dedupNonempty (seen : List String) : List String → List String
  | [] => []
  | x :: xs =>
    if x = "" ∨ x ∈ seen then dedupNonempty seen xs
    else x :: dedupNonempty (x :: seen) xs

/-- The seen-set after running dedupNonempty over a list (proof helper that
mirrors how dedupNonempty extends its accumulator). -/
def seenAfter (seen : List String) : List String → List String
  | [] => seen
  | x :: xs =>
    if x = "" ∨ x ∈ seen then seenAfter seen xs
    else seenAfter (x :: seen) xs

/-- SimpleRSSPlugin._update_subscription_checkpoint (src/main.py lines
473-486).  cap is self.init_fetch_count. -/
def update_subscription_checkpoint (cap : Nat) (sub : Subscription)
    (new_items : List RSSItem) : Subscription :=
  let next_last := new_items.foldl
    (fun acc item => if item.published_ts > acc then item.published_ts else acc)
    sub.last_update
  let merged := dedupNonempty [] (new_items.map uid ++ sub.recent_ids)
  { sub with last_update := next_last, recent_ids := merged.take cap }

/-- Spec-side newness predicate, written from the specification text: an item
is new iff its identity is not present in subscription.recentIds and its
publishedAt is 0 or not less than subscription.lastUpdate.  Used to compare
collect_new_items against the spec (claim C1). -/
def isNewSpec (sub : Subscription) (item : RSSItem) : Bool :=
  decide (uid item ∉ sub.recent_ids) &&
    (decide (item.published_ts = 0) || decide (sub.last_update ≤ item.published_ts))

/-! ### src/cron_utils.py -/

/-- The literal error message raised by parse_cron_expr. -/
def cronFieldCountError : String := "cron 仅支持 5 或 6 段"

/-- Python str.split(" "): split at every single space, keeping empty
tokens between consecutive spaces (and one empty token for the empty
string). -/
def splitOnSpace : List Char → List (List Char)
  | [] => [[]]
  | c :: rest =>
    match splitOnSpace rest with
    | [] => [[c]]
    | h :: t => if c = ' ' then [] :: h :: t else (c :: h) :: t

/-- The field list of parse_cron_expr (src/cron_utils.py line 16):
split on single spaces, keep tokens whose strip is non-empty (unstripped). -/
def pyFields (cron_expr : String) : List String :=
  ((splitOnSpace cron_expr.data).map (fun l => (⟨l⟩ : String))).filter
    (fun x => pyStrip x != "")

/-- normalize_day_of_week (src/cron_utils.py lines 6-12). -/
def normalize_day_of_week (value : String) : String :=
  let day := pyStrip value
  if day = "0-7" ∨ day = "1-7" then "*"
  else if day = "7" then "0"
  else day

/-- Keyword arguments handed to apscheduler CronTrigger; second is present
only for 6-field expressions. -/
structure CronKwargs where
  second : Option String
  minute : String
  hour : String
  day : String
  month : String
  day_of_week : String
deriving DecidableEq

/-- parse_cron_expr (src/cron_utils.py lines 15-34). -/
def parse_cron_expr (cron_expr : String) : Except String CronKwargs :=
  match pyFields cron_expr with
  | [m, h, d, mo, dow] => .ok ⟨none, m, h, d, mo, normalize_day_of_week dow⟩
  | [s, m, h, d, mo, dow] => .ok ⟨some s, m, h, d, mo, normalize_day_of_week dow⟩
  | _ => .error cronFieldCountError

/-- validate_cron_expr (src/cron_utils.py lines 37-43).  The apscheduler
CronTrigger constructor is third-party code and is abstracted as the
trigger parameter: none means the constructor accepts the kwargs, some msg
means it raises with message msg. -/
def validate_cron_expr (trigger : CronKwargs → Option String)
    (cron_expr : String) : Bool × String :=
  match parse_cron_expr cron_expr with
  | .error msg => (false, msg)
  | .ok kwargs =>
    match trigger kwargs with
    | none => (true, "")
    | some msg => (false, msg)

/-! ### src/rss_client.py : RSSClient.normalize_url

The function trims its input, prepends https:// when the input does not
already start with http:// or https:// (ASCII-case-insensitively), runs
urllib.parse.urlparse on the result, rejects a missing host or a scheme
other than http/https, and reassembles scheme://netloc path ?query.
urlparse (CPython 3.11 urlsplit plus its params split) is embedded below
for exactly this use. -/

/-- Characters of the WHATWG C0-control-or-space class that urlsplit strips
from the left of its input. -/
def isC0ControlOrSpace (c : Char) : Bool :=
  c.toNat ≤ 0x20

/-- urlsplit removes every tab, carriage return and newline from the URL. -/
def removeTabsNewlines (l : List Char) : List Char :=
  l.filter (fun c => !(c == '\t' || c == '\r' || c == '\n'))

/-- Characters allowed in a URL scheme by urllib.parse. -/
def isSchemeChar (c : Char) : Bool :=
  ('a' ≤ c && c ≤ 'z') || ('A' ≤ c && c ≤ 'Z') || ('0' ≤ c && c ≤ '9') ||
  c == '+' || c == '-' || c == '.'

/-- Is c an ASCII letter (url[0].isascii() and url[0].isalpha())? -/
def isAsciiAlpha (c : Char) : Bool :=
  ('a' ≤ c && c ≤ 'z') || ('A' ≤ c && c ≤ 'Z')

/-- Scheme detection of urlsplit: split at the first colon when everything
before it is a valid scheme starting with an ASCII letter; the scheme is
lower-cased.  Returns (scheme, remainder-after-colon), or none when no
scheme is recognised. -/
def splitScheme (l : List Char) : Option (List Char × List Char) :=
  let before := l.takeWhile (fun c => c != ':')
  let rest := l.dropWhile (fun c => c != ':')
  match rest with
  | ':' :: after =>
    match before with
    | [] => none
    | c0 :: _ =>
      if isAsciiAlpha c0 && before.all isSchemeChar then
        some (before.map asciiLowerChar, after)
      else none
  | _ => none

/-- The components of urlparse used by normalize_url. -/
structure URLParts where
  scheme : List Char
  netloc : List Char
  path : List Char
  params : List Char
  query : List Char
  fragment : List Char

/-- Split a list at the first occurrence of c: (part before, some part
after) when c occurs, (whole list, none) otherwise. -/
def splitOnFirstChar (c : Char) (l : List Char) : List Char × Option (List Char) :=
  let before := l.takeWhile (fun x => x != c)
  match l.dropWhile (fun x => x != c) with
  | _ :: after => (before, some after)
  | [] => (before, none)

/-- urlparse._splitparams: split path parameters after the last slash (or
from the start when the path has no slash). -/
def splitParams (p : List Char) : List Char × List Char :=
  if ';' ∈ p then
    if '/' ∈ p then
      let rev := p.reverse
      let afterLast := (rev.takeWhile (fun c => c != '/')).reverse
      let beforeIncl := (rev.dropWhile (fun c => c != '/')).reverse
      match splitOnFirstChar ';' afterLast with
      | (beforeSemi, some params) => (beforeIncl ++ beforeSemi, params)
      | (_, none) => (p, [])
    else
      match splitOnFirstChar ';' p with
      | (beforeSemi, some params) => (beforeSemi, params)
      | (_, none) => (p, [])
  else (p, [])

/-- urllib.parse.urlparse (CPython 3.11) on a list of code points, for the
http/https scheme (both are in uses_params).  The IPv6-bracket and netloc
checks that can raise are not modelled: they can only fire for a non-empty
netloc containing brackets or non-ASCII, which no theorem below touches. -/
def urlparseModel (url : List Char) : URLParts :=
  let url := removeTabsNewlines (url.dropWhile isC0ControlOrSpace)
  let (scheme, rest) :=
    match splitScheme url with
    | some (s, r) => (s, r)
    | none => ([], url)
  let (netloc, rest) :=
    match rest with
    | '/' :: '/' :: r =>
      (r.takeWhile (fun c => !(c == '/' || c == '?' || c == '#')),
       r.dropWhile (fun c => !(c == '/' || c == '?' || c == '#')))
    | r => ([], r)
  let (beforeFrag, fragment) := splitOnFirstChar '#' rest
  let (beforeQuery, query) := splitOnFirstChar '?' beforeFrag
  let (path, params) :=
    if ';' ∈ beforeQuery then splitParams beforeQuery else (beforeQuery, [])
  ⟨scheme, netloc, path, params, query.getD [], fragment.getD []⟩

/-- Does the trimmed input already match the regex ^https?:// ignoring ASCII
case (src/rss_client.py line 24)? -/
def matchesHttpScheme (l : List Char) : Bool :=
  (l.take 7).map asciiLowerChar == "http://".data ||
  (l.take 8).map asciiLowerChar == "https://".data

/-- The possibly-https-prefixed form of the input: the trimmed input, with
https:// prepended when the regex does not match. -/
def httpsForm (value : String) : List Char :=
  let raw := pyStripList value.data
  if matchesHttpScheme raw then raw else "https://".data ++ raw

/-- RSSClient.normalize_url (src/rss_client.py lines 19-34). -/
def normalize_url (value : String) : String :=
  let raw := pyStripList value.data
  if raw = [] then ""
  else
    let parts := urlparseModel (httpsForm value)
    if (parts.scheme ≠ "http".data ∧ parts.scheme ≠ "https".data) ∨ parts.netloc = [] then ""
    else
      ⟨parts.scheme ++ "://".data ++ parts.netloc ++ parts.path ++
        (if parts.query ≠ [] then '?' :: parts.query else [])⟩

/-! ### src/rss_client.py : RSSClient._strip_html

The pipeline of regex substitutions on lines 159-167.  Each substitution is
embedded as a left-to-right scan that, at every position, either consumes a
leftmost match (regex matches of these patterns are deterministic: greedy
runs followed by literal characters) or copies one character.  The scans
carry a fuel argument equal to the input length so that they are structural
recursions; every match consumes at least one character, so the fuel never
runs out. -/

/-- Leftmost match, at the head of l, of the pattern the source writes as
the raw string with a doubled backslash: <br then a literal backslash, then
a greedy run of s, an optional slash, and a closing angle bracket, with
ASCII-case-insensitive letters.  Returns the matched length. -/
def matchBrPattern (l : List Char) : Option Nat :=
  match l with
  | '<' :: b :: r :: '\\' :: rest =>
    if asciiLowerChar b == 'b' && asciiLowerChar r == 'r' then
      let k := (rest.takeWhile (fun c => asciiLowerChar c == 's')).length
      match rest.drop k with
      | '/' :: '>' :: _ => some (4 + k + 2)
      | '>' :: _ => some (4 + k + 1)
      | _ => none
    else none
  | _ => none

/-- re.sub of the (buggy) br pattern with a newline. -/
def subBrGo : Nat → List Char → List Char
  | 0, l => l
  | _, [] => []
  | fuel + 1, c :: rest =>
    match matchBrPattern (c :: rest) with
    | some k => '\n' :: subBrGo fuel ((c :: rest).drop k)
    | none => c :: subBrGo fuel rest

/-- Leftmost match, at the head of l, of the tag pattern: an opening angle
bracket, one or more characters that are not a closing angle bracket, then
a closing angle bracket.  Returns the matched length. -/
def matchTagPattern (l : List Char) : Option Nat :=
  match l with
  | '<' :: rest =>
    let k := (rest.takeWhile (fun c => c != '>')).length
    if k = 0 then none
    else
      match rest.drop k with
      | '>' :: _ => some (1 + k + 1)
      | _ => none
  | _ => none

/-- re.sub of the tag pattern with the empty string. -/
def subTagsGo : Nat → List Char → List Char
  | 0, l => l
  | _, [] => []
  | fuel + 1, c :: rest =>
    match matchTagPattern (c :: rest) with
    | some k => subTagsGo fuel ((c :: rest).drop k)
    | none => c :: subTagsGo fuel rest

/-- Parse a decimal digit (code points 48-57). -/
def decDigit (c : Char) : Option Nat :=
  let n := c.toNat
  if 48 ≤ n ∧ n ≤ 57 then some (n - 48) else none

/-- Parse a hexadecimal digit (0-9, a-f, A-F by code point ranges). -/
def hexDigitVal (c : Char) : Option Nat :=
  let n := c.toNat
  if 48 ≤ n ∧ n ≤ 57 then some (n - 48)
  else if 97 ≤ n ∧ n ≤ 102 then some (n - 87)
  else if 65 ≤ n ∧ n ≤ 70 then some (n - 55)
  else none

/-- Fold a digit list into a number. -/
def digitsToNat (base : Nat) (ds : List Nat) : Nat :=
  ds.foldl (fun acc d => acc * base + d) 0

/-- Modelled subset of html.unescape at an ampersand: the five standard
named references and semicolon-terminated numeric references.  The full
HTML5 entity table of CPython is not reproduced; on input without other
entity references (all inputs of the theorems below are ampersand-free)
this agrees with CPython.  Returns (replacement, consumed length after the
ampersand). -/
def matchEntity (l : List Char) : Option (List Char × Nat) :=
  if l.take 4 = "amp;".data then some (['&'], 4)
  else if l.take 3 = "lt;".data then some (['<'], 3)
  else if l.take 3 = "gt;".data then some (['>'], 3)
  else if l.take 5 = "quot;".data then some (['"'], 5)
  else if l.take 5 = "apos;".data then some (['\''], 5)
  else
    match l with
    | '#' :: 'x' :: rest =>
      let ds := rest.takeWhile (fun c => (hexDigitVal c).isSome)
      if ds ≠ [] ∧ rest.drop ds.length ≠ [] ∧ (rest.drop ds.length).take 1 = [';'] then
        let n := digitsToNat 16 (ds.filterMap hexDigitVal)
        if n.isValidChar then some ([Char.ofNat n], 2 + ds.length + 1) else none
      else none
    | '#' :: rest =>
      let ds := rest.takeWhile (fun c => (decDigit c).isSome)
      if ds ≠ [] ∧ rest.drop ds.length ≠ [] ∧ (rest.drop ds.length).take 1 = [';'] then
        let n := digitsToNat 10 (ds.filterMap decDigit)
        if n.isValidChar then some ([Char.ofNat n], 1 + ds.length + 1) else none
      else none
    | _ => none

/-- html.unescape scan (modelled subset, see matchEntity). -/
def unescapeGo : Nat → List Char → List Char
  | 0, l => l
  | _, [] => []
  | fuel + 1, '&' :: rest =>
    match matchEntity rest with
    | some (repl, k) => repl ++ unescapeGo fuel (rest.drop k)
    | none => '&' :: unescapeGo fuel rest
  | fuel + 1, c :: rest => c :: unescapeGo fuel rest

/-- re.sub of a carriage return with the empty string. -/
def dropCarriageReturns (l : List Char) : List Char :=
  l.filter (fun c => c != '\r')

/-- re.sub replacing every maximal run of three or more newlines with two
newlines (shorter runs are copied unchanged, which is what the scan does
position by position). -/
def collapseNewlinesGo : Nat → List Char → List Char
  | 0, l => l
  | _, [] => []
  | fuel + 1, c :: rest =>
    if c == '\n' then
      let k := 1 + (rest.takeWhile (fun x => x == '\n')).length
      if 3 ≤ k then '\n' :: '\n' :: collapseNewlinesGo fuel ((c :: rest).drop k)
      else c :: collapseNewlinesGo fuel rest
    else c :: collapseNewlinesGo fuel rest

/-- re.sub replacing every maximal run of two or more spaces/tabs with one
space. -/
def collapseSpacesGo : Nat → List Char → List Char
  | 0, l => l
  | _, [] => []
  | fuel + 1, c :: rest =>
    if c == ' ' || c == '\t' then
      let k := 1 + (rest.takeWhile (fun x => x == ' ' || x == '\t')).length
      if 2 ≤ k then ' ' :: collapseSpacesGo fuel ((c :: rest).drop k)
      else c :: collapseSpacesGo fuel rest
    else c :: collapseSpacesGo fuel rest

/-- RSSClient._strip_html (src/rss_client.py lines 159-167). -/
def strip_html (html : String) : String :=
  let t1 := subBrGo html.data.length html.data
  let t2 := subTagsGo t1.length t1
  let t3 := unescapeGo t2.length t2
  let t4 := dropCarriageReturns t3
  let t5 := collapseNewlinesGo t4.length t4
  let t6 := collapseSpacesGo t5.length t5
  ⟨pyStripList t6⟩

/-! ### src/main.py : _job_id and MD5

_job_id concatenates url, a vertical bar and channel, encodes the result as
UTF-8 (errors="ignore" never drops anything here, since every Lean Char is
a Unicode scalar value) and takes the md5 hex digest.  MD5 (RFC 1321) is
embedded below over Nat arithmetic modulo 2^32. -/

/-- UTF-8 encoding of one scalar value. -/
def utf8Char (c : Char) : List Nat :=
  let n := c.toNat
  if n < 0x80 then [n]
  else if n < 0x800 then [0xc0 + n / 64, 0x80 + n % 64]
  else if n < 0x10000 then
    [0xe0 + n / 4096, 0x80 + (n / 64) % 64, 0x80 + n % 64]
  else
    [0xf0 + n / 262144, 0x80 + (n / 4096) % 64, 0x80 + (n / 64) % 64, 0x80 + n % 64]

/-- UTF-8 encoding of a string as a byte list. -/
def utf8Bytes (s : String) : List Nat :=
  s.data.foldr (fun c acc => utf8Char c ++ acc) []

/-- The 64 MD5 sine-derived round constants. -/
def md5K : List Nat :=
  [3614090360, 3905402710, 606105819, 3250441966, 4118548399, 1200080426,
   2821735955, 4249261313, 1770035416, 2336552879, 4294925233, 2304563134,
   1804603682, 4254626195, 2792965006, 1236535329, 4129170786, 3225465664,
   643717713, 3921069994, 3593408605, 38016083, 3634488961, 3889429448,
   568446438, 3275163606, 4107603335, 1163531501, 2850285829, 4243563512,
   1735328473, 2368359562, 4294588738, 2272392833, 1839030562, 4259657740,
   2763975236, 1272893353, 4139469664, 3200236656, 681279174, 3936430074,
   3572445317, 76029189, 3654602809, 3873151461, 530742520, 3299628645,
   4096336452, 1126891415, 2878612391, 4237533241, 1700485571, 2399980690,
   4293915773, 2240044497, 1873313359, 4264355552, 2734768916, 1309151649,
   4149444226, 3174756917, 718787259, 3951481745]

/-- The MD5 per-round left-rotation amounts. -/
def md5S : List Nat :=
  [7, 12, 17, 22, 7, 12, 17, 22, 7, 12, 17, 22, 7, 12, 17, 22,
   5, 9, 14, 20, 5, 9, 14, 20, 5, 9, 14, 20, 5, 9, 14, 20,
   4, 11, 16, 23, 4, 11, 16, 23, 4, 11, 16, 23, 4, 11, 16, 23,
   6, 10, 15, 21, 6, 10, 15, 21, 6, 10, 15, 21, 6, 10, 15, 21]

/-- 32-bit truncation. -/
def w32 (n : Nat) : Nat := n % 4294967296

/-- Bitwise complement within 32 bits (arguments are always reduced). -/
def wNot (n : Nat) : Nat := 4294967295 - w32 n

/-- 32-bit left rotation. -/
def wRotl (x s : Nat) : Nat :=
  w32 (x <<< s) ||| (x >>> (32 - s))

/-- Little-endian byte encoding of a number on n bytes. -/
def leBytes : Nat → Nat → List Nat
  | 0, _ => []
  | n + 1, v => (v % 256) :: leBytes n (v / 256)

/-- MD5 padding: 0x80, zeros to 56 mod 64, then the bit length on 8
little-endian bytes. -/
def md5Pad (msg : List Nat) : List Nat :=
  let padLen := (55 + 64 - msg.length % 64) % 64
  msg ++ [0x80] ++ List.replicate padLen 0 ++ leBytes 8 (8 * msg.length)

/-- Group a byte list into little-endian 32-bit words. -/
def bytesToWords : List Nat → List Nat
  | b0 :: b1 :: b2 :: b3 :: rest =>
    (b0 + 256 * (b1 + 256 * (b2 + 256 * b3))) :: bytesToWords rest
  | _ => []

/-- Split a word list into chunks of 16 words (fuelled to stay structural). -/
def wordChunks : Nat → List Nat → List (List Nat)
  | 0, _ => []
  | _, [] => []
  | fuel + 1, l => l.take 16 :: wordChunks fuel (l.drop 16)

/-- One MD5 round step; st is (a, b, c, d), m the 16 message words. -/
def md5Step (m : List Nat) (st : Nat × Nat × Nat × Nat) (i : Nat) :
    Nat × Nat × Nat × Nat :=
  let (a, b, c, d) := st
  let f :=
    if i < 16 then (b &&& c) ||| (wNot b &&& d)
    else if i < 32 then (d &&& b) ||| (wNot d &&& c)
    else if i < 48 then b ^^^ c ^^^ d
    else c ^^^ (b ||| wNot d)
  let g :=
    if i < 16 then i
    else if i < 32 then (5 * i + 1) % 16
    else if i < 48 then (3 * i + 5) % 16
    else (7 * i) % 16
  let tmp := w32 (a + f + md5K.getD i 0 + m.getD g 0)
  (d, w32 (b + wRotl tmp (md5S.getD i 0)), b, c)

/-- Process one 16-word chunk. -/
def md5Chunk (st : Nat × Nat × Nat × Nat) (m : List Nat) :
    Nat × Nat × Nat × Nat :=
  let (a0, b0, c0, d0) := st
  let (a, b, c, d) := (List.range 64).foldl (md5Step m) (a0, b0, c0, d0)
  (w32 (a0 + a), w32 (b0 + b), w32 (c0 + c), w32 (d0 + d))

/-- Lowercase hex digit. -/
def hexChar (n : Nat) : Char :=
  "0123456789abcdef".data.getD n '0'

/-- Lowercase hex rendering of a byte list. -/
def bytesToHex (bs : List Nat) : List Char :=
  bs.foldr (fun b acc => hexChar (b / 16) :: hexChar (b % 16) :: acc) []

/-- hashlib.md5(msg).hexdigest() for a byte list. -/
def md5Hex (msg : List Nat) : String :=
  let padded := md5Pad msg
  let words := bytesToWords padded
  let chunks := wordChunks (words.length + 1) words
  let (a, b, c, d) :=
    chunks.foldl md5Chunk (0x67452301, 0xefcdab89, 0x98badcfe, 0x10325476)
  ⟨bytesToHex (leBytes 4 a ++ leBytes 4 b ++ leBytes 4 c ++ leBytes 4 d)⟩

/-- SimpleRSSPlugin._job_id (src/main.py lines 528-530). -/
def job_id (url : String) (channel : String) : String :=
  "rss-" ++ md5Hex (utf8Bytes (url ++ "|" ++ channel))

/-! ### src/data_handler.py : DataHandler

The in-memory graph self.data is feeds: url -> feed entry, each feed entry
holding title, description and subscribers: channel -> subscription.  Python
dicts preserve insertion order; they are embedded as association lists where
dict assignment replaces an existing key in place and otherwise appends.
The sqlite store is embedded as the three row lists that _persist_data
inserts; since every persist first deletes all rows, rowid order (used by
the loading queries) is exactly list order. -/

/-- Python dict assignment d[k] = v on an insertion-ordered association
list: replace in place when the key exists, append otherwise. -/
def dictInsert {β : Type} (l : List (String × β)) (k : String) (v : β) :
    List (String × β) :=
  if k ∈ l.map Prod.fst then l.map (fun p => if p.1 = k then (k, v) else p)
  else l ++ [(k, v)]

/-- Python d.get(k): the value at the first (there is at most one) matching
key. -/
def lookupDict {β : Type} (l : List (String × β)) (k : String) : Option β :=
  match l.find? (fun p => p.1 == k) with
  | some p => some p.2
  | none => none

/-- One feed entry of self.data["feeds"]. -/
structure FeedEntry where
  title : String
  description : String
  subscribers : List (String × Subscription)
deriving DecidableEq

/-- The feeds mapping of self.data. -/
abbrev FeedsData := List (String × FeedEntry)

/-- FALLBACK_CRON (src/data_handler.py line 5). -/
def FALLBACK_CRON : String := "*/30 * * * *"

/-- Python "s or d" for strings: d when s is empty (falsy), s otherwise. -/
def orString (s d : String) : String := if s = "" then d else s

/-- DataHandler._normalize_recent_ids (src/data_handler.py lines 63-71):
strip every entry, then keep the non-empty ones not seen before (the loop
is the same emit-if-new loop as dedupNonempty). -/
def normalize_recent_ids (raw : List String) : List String :=
  dedupNonempty [] (raw.map pyStrip)

/-- DataHandler._normalize_feed_entry (src/data_handler.py lines 79-99);
str(x or "") on a string is the identity, safe_int on an int is the
identity. -/
def normalize_feed_entry (feed : FeedEntry) : FeedEntry :=
  let subscribers := feed.subscribers.foldl
    (fun acc p => dictInsert acc p.1
      ⟨orString p.2.cron_expr FALLBACK_CRON, p.2.last_update,
       normalize_recent_ids p.2.recent_ids⟩) []
  ⟨feed.title, feed.description, subscribers⟩

/-- DataHandler._normalize_data (src/data_handler.py lines 101-116). -/
def normalize_data (g : FeedsData) : FeedsData :=
  g.foldl (fun acc p =>
    let uk := pyStrip p.1
    if uk = "" then acc else dictInsert acc uk (normalize_feed_entry p.2)) []

/-- A row of the feeds table. -/
structure FeedRow where
  url : String
  title : String
  description : String
deriving DecidableEq

/-- A row of the subscriptions table. -/
structure SubRow where
  url : String
  channel : String
  cron_expr : String
  last_update : Int
deriving DecidableEq

/-- A row of the subscription_recent_ids table. -/
structure RecRow where
  url : String
  channel : String
  position : Nat
  item_id : String
deriving DecidableEq

/-- The three tables, in insertion (= rowid) order. -/
structure DbRows where
  feeds : List FeedRow
  subs : List SubRow
  recents : List RecRow
deriving DecidableEq

/-- The recent-id rows of one subscription: enumerate(recent_ids). -/
def enumRecentRows (url channel : String) (ids : List String) : List RecRow :=
  ids.enum.map (fun p => ⟨url, channel, p.1, p.2⟩)

/-- The subscriber loop body of _persist_data (src/data_handler.py lines
187-203). -/
def persistSubscriber (uk : String) (rows : DbRows) (p : String × Subscription) :
    DbRows :=
  let ck := pyStrip p.1
  if ck = "" then rows
  else
    let nr := normalize_recent_ids p.2.recent_ids
    ⟨rows.feeds,
     rows.subs ++ [⟨uk, ck, orString p.2.cron_expr FALLBACK_CRON, p.2.last_update⟩],
     rows.recents ++ enumRecentRows uk ck nr⟩

/-- DataHandler._persist_data (src/data_handler.py lines 162-229): build the
three row lists in loop order and replace the whole store with them. -/
def persist_data (g : FeedsData) : DbRows :=
  g.foldl (fun rows p =>
    let uk := pyStrip p.1
    if uk = "" then rows
    else
      let rows' : DbRows :=
        ⟨rows.feeds ++ [⟨uk, p.2.title, p.2.description⟩], rows.subs, rows.recents⟩
      p.2.subscribers.foldl (persistSubscriber uk) rows') ⟨[], [], []⟩

/-- Insert one recent-id row into a list sorted by position. -/
def insertByPos (r : RecRow) : List RecRow → List RecRow
  | [] => [r]
  | x :: xs => if r.position ≤ x.position then r :: x :: xs else x :: insertByPos r xs

/-- Sort recent-id rows by position (insertion sort). -/
def sortByPos : List RecRow → List RecRow
  | [] => []
  | x :: xs => insertByPos x (sortByPos xs)

/-- The recent ids one subscription receives from _load_data.  The query
orders rows by (url, channel, position) and the loop appends each row to its
subscription, so each subscription ends with its own rows in position order;
that per-subscription view is what is embedded. -/
def recentIdsFor (rows : List RecRow) (url channel : String) : List String :=
  (sortByPos (rows.filter (fun r => r.url == url && r.channel == channel))).map
    (fun r => r.item_id)

/-- The subscription-row loop body of _load_data (src/data_handler.py lines
131-147): setdefault the feed, then assign the channel's subscription dict
(recent ids start empty at this stage). -/
def loadSubStep (acc : FeedsData) (r : SubRow) : FeedsData :=
  let sub : Subscription := ⟨orString r.cron_expr FALLBACK_CRON, r.last_update, []⟩
  match lookupDict acc r.url with
  | some f =>
    dictInsert acc r.url ⟨f.title, f.description, dictInsert f.subscribers r.channel sub⟩
  | none => acc ++ [(r.url, ⟨"", "", [(r.channel, sub)]⟩)]

/-- DataHandler._load_data (src/data_handler.py lines 118-160): rebuild the
feeds dict from the feed rows, add subscriptions, then attach each
subscription's recent ids. -/
def load_data (rows : DbRows) : FeedsData :=
  let feeds0 : FeedsData := rows.feeds.foldl
    (fun acc r => dictInsert acc r.url ⟨r.title, r.description, []⟩) []
  let feeds1 : FeedsData := rows.subs.foldl loadSubStep feeds0
  feeds1.map (fun p =>
    (p.1, ⟨p.2.title, p.2.description,
      p.2.subscribers.map (fun q =>
        (q.1, ⟨q.2.cron_expr, q.2.last_update, recentIdsFor rows.recents p.1 q.1⟩))⟩))

/-- DataHandler.save_data (normalize then persist) followed by _load_data:
the round trip of claim C6. -/
def save_load (g : FeedsData) : FeedsData :=
  load_data (persist_data (normalize_data g))

/-- A string key or id as the round-trip claim assumes it: non-empty, and
invariant under stripping. -/
abbrev cleanString (s : String) : Prop := s ≠ "" ∧ pyStrip s = s

/-- Wellformedness of one subscription for the round-trip claim. -/
abbrev wfSubscription (s : Subscription) : Prop :=
  s.cron_expr ≠ "" ∧ s.recent_ids.Nodup ∧ ∀ i ∈ s.recent_ids, cleanString i

/-- Wellformedness of one feed entry for the round-trip claim. -/
abbrev wfFeedEntry (f : FeedEntry) : Prop :=
  (f.subscribers.map Prod.fst).Nodup ∧
    ∀ p ∈ f.subscribers, cleanString p.1 ∧ wfSubscription p.2

/-- Wellformedness of the whole graph for the round-trip claim. -/
abbrev wfFeedsData (g : FeedsData) : Prop :=
  (g.map Prod.fst).Nodup ∧ ∀ p ∈ g, cleanString p.1 ∧ wfFeedEntry p.2

/-- The feed rows persist_data writes for a graph with clean keys. -/
def feedRowsOf (g : FeedsData) : List FeedRow :=
  g.map (fun p => ⟨p.1, p.2.title, p.2.description⟩)

/-- The subscription rows persist_data writes for one feed with clean
channel keys. -/
def subRowsOf (uk : String) (subs : List (String × Subscription)) : List SubRow :=
  subs.map (fun p => ⟨uk, p.1, orString p.2.cron_expr FALLBACK_CRON, p.2.last_update⟩)

/-- The recent-id rows persist_data writes for one feed with clean channel
keys and clean recent ids. -/
def recRowsOf (uk : String) (subs : List (String × Subscription)) : List RecRow :=
  subs.flatMap (fun p => enumRecentRows uk p.1 p.2.recent_ids)

/-- All subscription rows of a clean graph. -/
def allSubRows (g : FeedsData) : List SubRow :=
  g.flatMap (fun p => subRowsOf p.1 p.2.subscribers)

/-- All recent-id rows of a clean graph. -/
def allRecRows (g : FeedsData) : List RecRow :=
  g.flatMap (fun p => recRowsOf p.1 p.2.subscribers)

/-! ### Helper lemmas -/

/-- An item identity is never the empty string: either it is a non-empty
trimmed link, or it contains two literal bar characters. -/
theorem uid_ne_empty (item : RSSItem) : uid item ≠ "" := by
  unfold uid
  by_cases h : pyStrip item.link ≠ ""
  · rw [if_pos h]; exact h
  · rw [if_neg h]
    intro hcontra
    have hlen := congrArg String.length hcontra
    rw [String.length_append, String.length_append, String.length_append] at hlen
    have hone : ("|" : String).length = 1 := rfl
    have hzero : ("" : String).length = 0 := rfl
    omega

theorem foldl_ts_init_le (a : Int) (l : List RSSItem) :
    a ≤ l.foldl (fun acc it => if it.published_ts > acc then it.published_ts else acc) a := by
  induction l generalizing a with
  | nil => simp
  | cons x xs ih =>
    refine le_trans ?_ (ih (if x.published_ts > a then x.published_ts else a))
    split <;> omega

theorem foldl_ts_mem_le (a : Int) (l : List RSSItem) :
    ∀ x ∈ l, x.published_ts ≤
      l.foldl (fun acc it => if it.published_ts > acc then it.published_ts else acc) a := by
  induction l generalizing a with
  | nil => simp
  | cons y ys ih =>
    intro x hx
    rcases List.mem_cons.mp hx with h | h
    · subst h
      refine le_trans ?_ (foldl_ts_init_le (if x.published_ts > a then x.published_ts else a) ys)
      split <;> omega
    · exact ih _ x h

theorem foldl_ts_cases (a : Int) (l : List RSSItem) :
    l.foldl (fun acc it => if it.published_ts > acc then it.published_ts else acc) a = a ∨
      ∃ x ∈ l, l.foldl (fun acc it => if it.published_ts > acc then it.published_ts else acc) a
        = x.published_ts := by
  induction l generalizing a with
  | nil => simp
  | cons y ys ih =>
    rcases ih (if y.published_ts > a then y.published_ts else a) with h | ⟨x, hx, h⟩
    · simp only [List.foldl_cons, h]
      split
      · exact Or.inr ⟨y, List.mem_cons_self _ _, rfl⟩
      · exact Or.inl rfl
    · exact Or.inr ⟨x, List.mem_cons_of_mem _ hx, h⟩

theorem foldl_ts_eq_self (a : Int) (l : List RSSItem) (h : ∀ x ∈ l, x.published_ts ≤ a) :
    l.foldl (fun acc it => if it.published_ts > acc then it.published_ts else acc) a = a := by
  induction l with
  | nil => simp
  | cons y ys ih =>
    have hy : y.published_ts ≤ a := h y (List.mem_cons_self _ _)
    have : (if y.published_ts > a then y.published_ts else a) = a := by split <;> omega
    simp only [List.foldl_cons, this]
    exact ih (fun x hx => h x (List.mem_cons_of_mem _ hx))

theorem dedup_mem_props (seen : List String) (l : List String) :
    ∀ x ∈ dedupNonempty seen l, x ≠ "" ∧ x ∉ seen := by
  induction l generalizing seen with
  | nil => simp [dedupNonempty]
  | cons y ys ih =>
    intro x hx
    unfold dedupNonempty at hx
    split at hx
    · exact ih seen x hx
    · rename_i hcond
      rcases List.mem_cons.mp hx with h | h
      · subst h
        push_neg at hcond
        exact ⟨hcond.1, hcond.2⟩
      · have := ih (y :: seen) x h
        exact ⟨this.1, fun hmem => this.2 (List.mem_cons_of_mem _ hmem)⟩

theorem dedup_nodup (seen : List String) (l : List String) :
    (dedupNonempty seen l).Nodup := by
  induction l generalizing seen with
  | nil => simp [dedupNonempty]
  | cons y ys ih =>
    unfold dedupNonempty
    split
    · exact ih seen
    · refine List.nodup_cons.mpr ⟨?_, ih (y :: seen)⟩
      intro hmem
      exact (dedup_mem_props _ _ y hmem).2 (List.mem_cons_self _ _)

theorem dedup_append (seen : List String) (u v : List String) :
    dedupNonempty seen (u ++ v)
      = dedupNonempty seen u ++ dedupNonempty (seenAfter seen u) v := by
  induction u generalizing seen with
  | nil => simp [dedupNonempty, seenAfter]
  | cons y ys ih =>
    simp only [List.cons_append, dedupNonempty, seenAfter]
    by_cases hy : y = "" ∨ y ∈ seen
    · simp only [if_pos hy, List.append_eq]
      exact ih seen
    · simp only [if_neg hy, List.append_eq]
      rw [ih (y :: seen)]
      rfl

theorem mem_seenAfter_of_mem (seen : List String) (l : List String) (x : String)
    (h : x ∈ seen) : x ∈ seenAfter seen l := by
  induction l generalizing seen with
  | nil => simpa [seenAfter]
  | cons y ys ih =>
    unfold seenAfter
    split
    · exact ih seen h
    · exact ih (y :: seen) (List.mem_cons_of_mem _ h)

theorem mem_seenAfter_of_emitted (seen : List String) (l : List String) (x : String)
    (h : x ∈ dedupNonempty seen l) : x ∈ seenAfter seen l := by
  induction l generalizing seen with
  | nil => simp [dedupNonempty] at h
  | cons y ys ih =>
    unfold dedupNonempty at h
    unfold seenAfter
    split
    · rename_i hcond
      rw [if_pos hcond] at h
      exact ih seen h
    · rename_i hcond
      rw [if_neg hcond] at h
      rcases List.mem_cons.mp h with h1 | h1
      · subst h1
        exact mem_seenAfter_of_mem _ _ _ (List.mem_cons_self _ _)
      · exact ih (y :: seen) h1

theorem dedup_all_seen (seen : List String) (l : List String)
    (h : ∀ x ∈ l, x = "" ∨ x ∈ seen) :
    dedupNonempty seen l = [] ∧ seenAfter seen l = seen := by
  induction l with
  | nil => simp [dedupNonempty, seenAfter]
  | cons y ys ih =>
    have hy : y = "" ∨ y ∈ seen := h y (List.mem_cons_self _ _)
    unfold dedupNonempty seenAfter
    rw [if_pos hy, if_pos hy]
    exact ih (fun x hx => h x (List.mem_cons_of_mem _ hx))

theorem dedup_eq_self (seen : List String) (l : List String) (hnd : l.Nodup)
    (h : ∀ x ∈ l, x ≠ "" ∧ x ∉ seen) : dedupNonempty seen l = l := by
  induction l generalizing seen with
  | nil => simp [dedupNonempty]
  | cons y ys ih =>
    have hy := h y (List.mem_cons_self _ _)
    unfold dedupNonempty
    rw [if_neg (by push_neg; exact hy)]
    have hnd' := List.nodup_cons.mp hnd
    congr 1
    refine ih (y :: seen) hnd'.2 ?_
    intro x hx
    refine ⟨(h x (List.mem_cons_of_mem _ hx)).1, ?_⟩
    intro hmem
    rcases List.mem_cons.mp hmem with h1 | h1
    · exact hnd'.1 (h1 ▸ hx)
    · exact (h x (List.mem_cons_of_mem _ hx)).2 h1

/-- The identity-window part of the checkpoint advance is idempotent: merging
the same uids again into an already-merged-and-truncated window and
truncating again changes nothing. -/
theorem dedup_take_idem (cap : Nat) (u r : List String) :
    (dedupNonempty [] (u ++ (dedupNonempty [] (u ++ r)).take cap)).take cap
      = (dedupNonempty [] (u ++ r)).take cap := by
  have hd : dedupNonempty [] (u ++ r)
      = dedupNonempty [] u ++ dedupNonempty (seenAfter [] u) r := dedup_append [] u r
  by_cases hcap : cap ≤ (dedupNonempty [] u).length
  · have hf : (dedupNonempty [] (u ++ r)).take cap = (dedupNonempty [] u).take cap := by
      rw [hd]; exact List.take_append_of_le_length hcap
    rw [hf]
    have hall : ∀ x ∈ (dedupNonempty [] u).take cap, x = "" ∨ x ∈ seenAfter [] u := by
      intro x hx
      exact Or.inr (mem_seenAfter_of_emitted [] u x (List.take_subset _ _ hx))
    rw [dedup_append [] u ((dedupNonempty [] u).take cap),
      (dedup_all_seen (seenAfter [] u) ((dedupNonempty [] u).take cap) hall).1,
      List.append_nil]
  · push_neg at hcap
    have hf : (dedupNonempty [] (u ++ r)).take cap
        = dedupNonempty [] u
          ++ (dedupNonempty (seenAfter [] u) r).take (cap - (dedupNonempty [] u).length) := by
      rw [hd, List.take_append_eq_append_take, List.take_of_length_le (le_of_lt hcap)]
    rw [hf]
    have hdu_all : ∀ x ∈ dedupNonempty [] u, x = "" ∨ x ∈ seenAfter [] u :=
      fun x hx => Or.inr (mem_seenAfter_of_emitted [] u x hx)
    rw [dedup_append [] u _,
      dedup_append (seenAfter [] u) (dedupNonempty [] u) _,
      (dedup_all_seen (seenAfter [] u) (dedupNonempty [] u) hdu_all).1,
      (dedup_all_seen (seenAfter [] u) (dedupNonempty [] u) hdu_all).2,
      List.nil_append]
    rw [dedup_eq_self (seenAfter [] u) _
      ((dedup_nodup (seenAfter [] u) r).sublist (List.take_sublist _ _))
      (fun x hx => dedup_mem_props (seenAfter [] u) r x (List.take_subset _ _ hx))]
    refine List.take_of_length_le ?_
    rw [List.length_append]
    have := List.length_take_le (cap - (dedupNonempty [] u).length)
      (dedupNonempty (seenAfter [] u) r)
    omega

/-! ### Claim theorems -/

/-- C1: collect_new_items returns exactly the items of the input, in input
order, whose identity is not in the subscription recent ids and whose
published timestamp is 0 or not less than the checkpoint: it equals the
input filtered by the spec newness predicate. -/
theorem c1_collect_new_items_is_spec_filter (items : List RSSItem) (sub : Subscription) :
    collect_new_items items sub = items.filter (isNewSpec sub) := by
  simp only [collect_new_items]
  refine List.filter_congr ?_
  intro item _
  unfold isNewSpec
  have h1 : (uid item ∈ sub.recent_ids.filter (fun x => x != "")) ↔ uid item ∈ sub.recent_ids := by
    rw [List.mem_filter]
    exact ⟨fun h => h.1, fun h => ⟨h, bne_iff_ne.mpr (uid_ne_empty item)⟩⟩
  have h2 : (¬item.published_ts ≠ 0) ↔ item.published_ts = 0 := not_not
  have h3 : (¬item.published_ts < sub.last_update) ↔ sub.last_update ≤ item.published_ts := not_lt
  simp only [Bool.not_and, ← decide_not]
  rw [decide_eq_decide.mpr (not_congr h1), decide_eq_decide.mpr h2, decide_eq_decide.mpr h3]

/-- C2 counterexample: a batch containing the same entry twice (same
identity, no timestamp) against a fresh subscription is returned twice by
collect_new_items, so one delivery per identity fails within a batch. -/
theorem c2_counterexample :
    ¬ ((collect_new_items
          [RSSItem.mk "t" "" "s" "" 0, RSSItem.mk "t" "" "s" "" 0]
          (Subscription.mk "* * * * *" 0 [])).map uid).Nodup := by
  decide

/-- C2 amended: collect_new_items never returns an item whose identity is
already recorded in the subscription recent ids, so an identity that was
delivered and recorded collapses to no further delivery; but two items of
the same fetched batch sharing one identity are both returned. -/
theorem c2_amended_no_redelivery (items : List RSSItem) (sub : Subscription)
    (item : RSSItem) (h : item ∈ collect_new_items items sub) :
    uid item ∉ sub.recent_ids := by
  simp only [collect_new_items] at h
  have hf := (List.mem_filter.mp h).2
  rw [Bool.and_eq_true] at hf
  intro hmem
  have hmf : uid item ∈ sub.recent_ids.filter (fun x => x != "") :=
    List.mem_filter.mpr ⟨hmem, bne_iff_ne.mpr (uid_ne_empty item)⟩
  have h1 := hf.1
  simp [hmf] at h1

/-- C2 amended witness at a concrete batch and subscription. -/
theorem c2_amended_witness :
    uid (RSSItem.mk "t" "" "s" "" 0) ∉ (Subscription.mk "* * * * *" 0 ["x"]).recent_ids :=
  c2_amended_no_redelivery [RSSItem.mk "t" "" "s" "" 0] (Subscription.mk "* * * * *" 0 ["x"])
    (RSSItem.mk "t" "" "s" "" 0) (by decide)

/-- C3: after update_subscription_checkpoint the checkpoint equals the
maximum of the previous checkpoint and the largest published timestamp of
the new items (it dominates both and is attained by one of them), and the
checkpoint never decreases over any sequence of polls. -/
theorem c3_checkpoint_max_and_monotone (cap : Nat) (sub : Subscription)
    (its : List RSSItem) (polls : List (List RSSItem)) :
    sub.last_update ≤ (update_subscription_checkpoint cap sub its).last_update ∧
    (∀ item ∈ its,
      item.published_ts ≤ (update_subscription_checkpoint cap sub its).last_update) ∧
    ((update_subscription_checkpoint cap sub its).last_update = sub.last_update ∨
      ∃ item ∈ its,
        (update_subscription_checkpoint cap sub its).last_update = item.published_ts) ∧
    sub.last_update ≤ (polls.foldl (update_subscription_checkpoint cap) sub).last_update := by
  have hlast : ∀ (s : Subscription) (l : List RSSItem),
      (update_subscription_checkpoint cap s l).last_update
        = l.foldl (fun acc it => if it.published_ts > acc then it.published_ts else acc)
            s.last_update := fun s l => rfl
  refine ⟨?_, ?_, ?_, ?_⟩
  · rw [hlast]; exact foldl_ts_init_le _ _
  · intro item hm; rw [hlast]; exact foldl_ts_mem_le _ _ item hm
  · rw [hlast]; exact foldl_ts_cases _ _
  · induction polls generalizing sub with
    | nil => simp
    | cons p ps ih =>
      simp only [List.foldl_cons]
      refine le_trans ?_ (ih (update_subscription_checkpoint cap sub p))
      rw [hlast]
      exact foldl_ts_init_le _ _

/-- C4: after any checkpoint update starting from a wellformed window, the
recent-id window still contains only non-empty strings, has no duplicates,
and is no longer than the configured capacity. -/
theorem c4_recent_ids_invariant (cap : Nat) (sub : Subscription) (its : List RSSItem)
    (h1 : ∀ i ∈ sub.recent_ids, i ≠ "") (h2 : sub.recent_ids.Nodup) :
    (∀ i ∈ (update_subscription_checkpoint cap sub its).recent_ids, i ≠ "") ∧
    (update_subscription_checkpoint cap sub its).recent_ids.Nodup ∧
    (update_subscription_checkpoint cap sub its).recent_ids.length ≤ cap := by
  have hr : (update_subscription_checkpoint cap sub its).recent_ids
      = (dedupNonempty [] (its.map uid ++ sub.recent_ids)).take cap := rfl
  rw [hr]
  refine ⟨?_, ?_, ?_⟩
  · intro i hi
    exact (dedup_mem_props [] _ i (List.take_subset _ _ hi)).1
  · exact (dedup_nodup [] _).sublist (List.take_sublist _ _)
  · exact List.length_take_le _ _

/-- C4 witness at a concrete capacity, subscription and item list. -/
theorem c4_witness :
    (∀ i ∈ (update_subscription_checkpoint 2 (Subscription.mk "c" 0 ["a"]) []).recent_ids,
      i ≠ "") ∧
    (update_subscription_checkpoint 2 (Subscription.mk "c" 0 ["a"]) []).recent_ids.Nodup ∧
    (update_subscription_checkpoint 2 (Subscription.mk "c" 0 ["a"]) []).recent_ids.length ≤ 2 :=
  c4_recent_ids_invariant 2 (Subscription.mk "c" 0 ["a"]) [] (by decide) (by decide)

/-- C5: update_subscription_checkpoint is idempotent: applying it twice with
the same new items gives the same subscription state as applying it once. -/
theorem c5_update_idempotent (cap : Nat) (sub : Subscription) (its : List RSSItem) :
    update_subscription_checkpoint cap (update_subscription_checkpoint cap sub its) its
      = update_subscription_checkpoint cap sub its := by
  obtain ⟨cr, lu, rc⟩ := sub
  simp only [update_subscription_checkpoint, Subscription.mk.injEq]
  refine ⟨trivial, ?_, ?_⟩
  · exact foldl_ts_eq_self _ its (foldl_ts_mem_le lu its)
  · exact dedup_take_idem cap (its.map uid) rc

/-- C7 counterexample: the input "not a url" trims to itself, gains the
https scheme, and urlparse accepts "not a url" as a non-empty host, so
normalize_url returns "https://not a url" instead of the empty string the
claim predicts. -/
theorem c7_counterexample :
    normalize_url "not a url" = "https://not a url" ∧ normalize_url "not a url" ≠ "" := by
  decide

/-- C7 amended: normalize_url returns the empty string for every input
whose possibly-https-prefixed form parses with a scheme other than
http/https or an empty host, and normalize_url of example.com/feed?x=1 is
https://example.com/feed?x=1; the input "not a url" however parses with the
non-empty host "not a url" and is therefore not rejected. -/
theorem c7_amended_normalize_url :
    (∀ s : String,
      (((urlparseModel (httpsForm s)).scheme ≠ "http".data ∧
        (urlparseModel (httpsForm s)).scheme ≠ "https".data) ∨
        (urlparseModel (httpsForm s)).netloc = []) →
      normalize_url s = "") ∧
    normalize_url "example.com/feed?x=1" = "https://example.com/feed?x=1" := by
  constructor
  · intro s hbad
    simp only [normalize_url]
    by_cases hraw : pyStripList s.data = []
    · rw [if_pos hraw]
    · rw [if_neg hraw, if_pos hbad]
  · decide

/-- C7 amended witness: "https://" has an empty host, so it is rejected. -/
theorem c7_amended_witness : normalize_url "https://" = "" :=
  c7_amended_normalize_url.1 "https://" (by decide)

/-- C8: evaluating the embedded _strip_html at the failing input "a<br>b":
the br pattern (written with a doubled backslash in a raw string) does not
match "<br>", the generic tag pattern removes it, and the result is "ab"
rather than the "a\nb" the specification describes. -/
theorem c8_strip_html_br_removed :
    strip_html "a<br>b" = "ab" ∧ strip_html "a<br>b" ≠ "a\nb" := by
  decide

/-- Helper for C9: parse_cron_expr succeeds exactly on 5 or 6 fields and
otherwise raises the field-count error. -/
theorem parse_cron_by_length (e : String) :
    (((pyFields e).length = 5 ∨ (pyFields e).length = 6) →
      ∃ k, parse_cron_expr e = .ok k) ∧
    ((pyFields e).length ≠ 5 → (pyFields e).length ≠ 6 →
      parse_cron_expr e = .error cronFieldCountError) := by
  unfold parse_cron_expr
  rcases hfe : pyFields e with _ | ⟨a, _ | ⟨b, _ | ⟨c, _ | ⟨d, _ | ⟨f, _ | ⟨g, _ | ⟨h, t⟩⟩⟩⟩⟩⟩⟩
  · simp
  · simp
  · simp
  · simp
  · simp
  · simp
  · simp
  · constructor
    · intro hlen
      simp only [List.length_cons] at hlen
      omega
    · intro h5 h6
      rfl

/-- C9: validate_cron_expr reports ok with an empty error string for every
expression with 5 or 6 space-separated fields that the (abstracted)
CronTrigger constructor accepts, and reports failure with the field-count
error for every expression with any other field count. -/
theorem c9_validate_cron (trigger : CronKwargs → Option String) (e : String) :
    (∀ k, parse_cron_expr e = .ok k → trigger k = none →
      validate_cron_expr trigger e = (true, "")) ∧
    (((pyFields e).length = 5 ∨ (pyFields e).length = 6) →
      ∃ k, parse_cron_expr e = .ok k) ∧
    ((pyFields e).length ≠ 5 → (pyFields e).length ≠ 6 →
      validate_cron_expr trigger e = (false, cronFieldCountError)) := by
  refine ⟨?_, (parse_cron_by_length e).1, ?_⟩
  · intro k hk htrig
    simp only [validate_cron_expr, hk, htrig]
  · intro h5 h6
    simp only [validate_cron_expr, (parse_cron_by_length e).2 h5 h6]

/-- C9 witness: a plain 5-field expression validates with an empty error
under an accepting trigger, and a 2-field expression fails. -/
theorem c9_witness :
    validate_cron_expr (fun _ => none) "* * * * *" = (true, "") ∧
    validate_cron_expr (fun _ => none) "* *" = (false, cronFieldCountError) :=
  ⟨(c9_validate_cron (fun _ => none) "* * * * *").1
      ⟨none, "*", "*", "*", "*", "*"⟩ rfl rfl,
    (c9_validate_cron (fun _ => none) "* *").2.2 (by decide) (by decide)⟩

/-- C10 counterexample: the two distinct (url, channel) pairs
("a", "b|c") and ("a|b", "c") concatenate to the same joined string
"a|b|c", so _job_id gives them the same job id: the id is not
collision-free on pairs. -/
theorem c10_counterexample :
    job_id "a" "b|c" = job_id "a|b" "c" ∧
      ("a", "b|c") ≠ (("a|b", "c") : String × String) := by
  constructor
  · show ("rss-" ++ md5Hex (utf8Bytes ("a" ++ "|" ++ "b|c")) : String)
      = "rss-" ++ md5Hex (utf8Bytes ("a|b" ++ "|" ++ "c"))
    have h : ("a" ++ "|" ++ "b|c" : String) = "a|b" ++ "|" ++ "c" := by decide
    rw [h]
  · decide

/-- C10 amended: _job_id is deterministic (equal pairs give equal ids), and
two pairs receive the same id exactly when the md5 hex digests of their
url|channel joins agree; pairs whose joins coincide (such as ("a", "b|c")
and ("a|b", "c")) therefore always collide, so the id is collision-free on
joined strings up to md5 collisions, not on (url, channel) pairs. -/
theorem c10_amended_job_id (u1 c1 u2 c2 : String) :
    (u1 = u2 → c1 = c2 → job_id u1 c1 = job_id u2 c2) ∧
    (job_id u1 c1 = job_id u2 c2 ↔
      md5Hex (utf8Bytes (u1 ++ "|" ++ c1)) = md5Hex (utf8Bytes (u2 ++ "|" ++ c2))) := by
  constructor
  · intro hu hc; rw [hu, hc]
  · constructor
    · intro h
      unfold job_id at h
      have hd := congrArg String.data h
      rw [String.data_append, String.data_append] at hd
      have hcancel := List.append_cancel_left hd
      have hext : ∀ (x y : String), x.data = y.data → x = y := by
        intro x y hxy
        cases x
        cases y
        exact congrArg String.mk hxy
      exact hext _ _ hcancel
    · intro h
      unfold job_id
      rw [h]

/-- C10 amended witness at a concrete pair. -/
theorem c10_amended_witness : job_id "u" "c" = job_id "u" "c" :=
  (c10_amended_job_id "u" "c" "u" "c").1 rfl rfl

/-! ### Dictionary lemmas for the round trip -/

theorem map_keep_of_not_mem_keys {β : Type} (l : List (String × β)) (u : String) (v : β)
    (h : u ∉ l.map Prod.fst) :
    l.map (fun p => if p.1 = u then (u, v) else p) = l := by
  induction l with
  | nil => rfl
  | cons p ps ih =>
    have hp : p.1 ≠ u := by
      intro he
      exact h (by simp [he])
    have hps : u ∉ ps.map Prod.fst := fun hm => h (List.mem_cons_of_mem _ hm)
    simp only [List.map_cons, if_neg hp, ih hps]

theorem dictInsert_fresh {β : Type} (l : List (String × β)) (k : String) (v : β)
    (h : k ∉ l.map Prod.fst) : dictInsert l k v = l ++ [(k, v)] := by
  unfold dictInsert
  rw [if_neg h]

theorem lookupDict_middle {β : Type} (pre post : List (String × β)) (u : String) (F : β)
    (h : u ∉ pre.map Prod.fst) :
    lookupDict (pre ++ (u, F) :: post) u = some F := by
  induction pre with
  | nil => simp [lookupDict, List.find?]
  | cons p ps ih =>
    have hp : p.1 ≠ u := by
      intro he
      exact h (by simp [he])
    have hps : u ∉ ps.map Prod.fst := fun hm => h (List.mem_cons_of_mem _ hm)
    simp only [List.cons_append, lookupDict, List.find?]
    rw [show (p.1 == u) = false from beq_eq_false_iff_ne.mpr hp]
    exact ih hps

theorem dictInsert_middle {β : Type} (pre post : List (String × β)) (u : String) (F v : β)
    (hpre : u ∉ pre.map Prod.fst) (hpost : u ∉ post.map Prod.fst) :
    dictInsert (pre ++ (u, F) :: post) u v = pre ++ (u, v) :: post := by
  unfold dictInsert
  rw [if_pos (by simp)]
  rw [List.map_append, List.map_cons]
  rw [map_keep_of_not_mem_keys pre u v hpre, map_keep_of_not_mem_keys post u v hpost]
  simp

/-! ### Normalization is the identity on wellformed graphs -/

theorem normalize_recent_ids_eq_self (ids : List String) (hnd : ids.Nodup)
    (hc : ∀ i ∈ ids, cleanString i) : normalize_recent_ids ids = ids := by
  unfold normalize_recent_ids
  have hmap : ids.map pyStrip = ids := by
    rw [List.map_congr_left (fun i hi => (hc i hi).2)]
    simp
  rw [hmap]
  exact dedup_eq_self [] ids hnd (fun x hx => ⟨(hc x hx).1, by simp⟩)

theorem normalize_subscribers_fold (subs : List (String × Subscription))
    (acc : List (String × Subscription))
    (hfresh : ∀ p ∈ subs, p.1 ∉ acc.map Prod.fst)
    (hnd : (subs.map Prod.fst).Nodup)
    (hwf : ∀ p ∈ subs, wfSubscription p.2) :
    subs.foldl (fun acc p => dictInsert acc p.1
      ⟨orString p.2.cron_expr FALLBACK_CRON, p.2.last_update,
        normalize_recent_ids p.2.recent_ids⟩) acc = acc ++ subs := by
  induction subs generalizing acc with
  | nil => simp
  | cons p ps ih =>
    have hwp := hwf p (List.mem_cons_self _ _)
    have hv : (⟨orString p.2.cron_expr FALLBACK_CRON, p.2.last_update,
        normalize_recent_ids p.2.recent_ids⟩ : Subscription) = p.2 := by
      have h1 : orString p.2.cron_expr FALLBACK_CRON = p.2.cron_expr := by
        unfold orString
        rw [if_neg hwp.1]
      rw [h1, normalize_recent_ids_eq_self _ hwp.2.1 hwp.2.2]
    simp only [List.foldl_cons, hv]
    rw [dictInsert_fresh _ _ _ (hfresh p (List.mem_cons_self _ _))]
    have hstep : acc ++ [(p.1, p.2)] = acc ++ [p] := by simp
    rw [hstep]
    rw [ih (acc ++ [p])
      (by
        intro q hq
        rw [List.map_append, List.mem_append]
        rintro (h1 | h1)
        · exact hfresh q (List.mem_cons_of_mem _ hq) h1
        · have : q.1 = p.1 := by simpa using h1
          have hnd' := List.nodup_cons.mp hnd
          exact hnd'.1 (this ▸ List.mem_map_of_mem Prod.fst hq))
      (List.nodup_cons.mp hnd).2
      (fun q hq => hwf q (List.mem_cons_of_mem _ hq))]
    simp

theorem normalize_feed_entry_eq_self (f : FeedEntry) (h : wfFeedEntry f) :
    normalize_feed_entry f = f := by
  unfold normalize_feed_entry
  rw [normalize_subscribers_fold f.subscribers [] (by simp) h.1
    (fun p hp => (h.2 p hp).2)]
  simp

theorem normalize_data_eq_self (g : FeedsData) (h : wfFeedsData g) :
    normalize_data g = g := by
  unfold normalize_data
  suffices hgen : ∀ (gs : FeedsData) (acc : FeedsData),
      (∀ p ∈ gs, p.1 ∉ acc.map Prod.fst) → (gs.map Prod.fst).Nodup →
      (∀ p ∈ gs, cleanString p.1 ∧ wfFeedEntry p.2) →
      gs.foldl (fun acc p =>
        let uk := pyStrip p.1
        if uk = "" then acc else dictInsert acc uk (normalize_feed_entry p.2)) acc
        = acc ++ gs by
    simpa using hgen g [] (by simp) h.1 h.2
  intro gs
  induction gs with
  | nil => intro acc _ _ _; simp
  | cons p ps ih =>
    intro acc hfresh hnd hwf
    have hwp := hwf p (List.mem_cons_self _ _)
    simp only [List.foldl_cons]
    rw [show pyStrip p.1 = p.1 from hwp.1.2]
    rw [if_neg hwp.1.1]
    rw [normalize_feed_entry_eq_self p.2 hwp.2]
    rw [dictInsert_fresh _ _ _ (hfresh p (List.mem_cons_self _ _))]
    have hstep : acc ++ [(p.1, p.2)] = acc ++ [p] := by simp
    rw [hstep]
    rw [ih (acc ++ [p])
      (by
        intro q hq
        rw [List.map_append, List.mem_append]
        rintro (h1 | h1)
        · exact hfresh q (List.mem_cons_of_mem _ hq) h1
        · have : q.1 = p.1 := by simpa using h1
          have hnd' := List.nodup_cons.mp hnd
          exact hnd'.1 (this ▸ List.mem_map_of_mem Prod.fst hq))
      (List.nodup_cons.mp hnd).2
      (fun q hq => hwf q (List.mem_cons_of_mem _ hq))]
    simp

/-! ### persist_data produces the expected rows on wellformed graphs -/

theorem persist_subscribers_fold (uk : String) (subs : List (String × Subscription))
    (rows : DbRows)
    (hch : ∀ p ∈ subs, cleanString p.1)
    (hrec : ∀ p ∈ subs, normalize_recent_ids p.2.recent_ids = p.2.recent_ids) :
    subs.foldl (persistSubscriber uk) rows
      = ⟨rows.feeds, rows.subs ++ subRowsOf uk subs, rows.recents ++ recRowsOf uk subs⟩ := by
  induction subs generalizing rows with
  | nil => simp [subRowsOf, recRowsOf]
  | cons p ps ih =>
    have hp := hch p (List.mem_cons_self _ _)
    simp only [List.foldl_cons]
    rw [show persistSubscriber uk rows p
        = ⟨rows.feeds, rows.subs ++ [⟨uk, p.1, orString p.2.cron_expr FALLBACK_CRON,
            p.2.last_update⟩],
          rows.recents ++ enumRecentRows uk p.1 p.2.recent_ids⟩ by
      unfold persistSubscriber
      rw [hp.2, if_neg hp.1, hrec p (List.mem_cons_self _ _)]]
    rw [ih _ (fun q hq => hch q (List.mem_cons_of_mem _ hq))
      (fun q hq => hrec q (List.mem_cons_of_mem _ hq))]
    simp [subRowsOf, recRowsOf]

theorem persist_data_rows (g : FeedsData) (h : wfFeedsData g) :
    persist_data g = ⟨feedRowsOf g, allSubRows g, allRecRows g⟩ := by
  unfold persist_data
  suffices hgen : ∀ (gs : FeedsData) (rows : DbRows),
      (∀ p ∈ gs, cleanString p.1 ∧ wfFeedEntry p.2) →
      gs.foldl (fun rows p =>
        let uk := pyStrip p.1
        if uk = "" then rows
        else
          let rows' : DbRows :=
            ⟨rows.feeds ++ [⟨uk, p.2.title, p.2.description⟩], rows.subs, rows.recents⟩
          p.2.subscribers.foldl (persistSubscriber uk) rows') rows
        = ⟨rows.feeds ++ feedRowsOf gs, rows.subs ++ allSubRows gs,
            rows.recents ++ allRecRows gs⟩ by
    simpa using hgen g ⟨[], [], []⟩ h.2
  intro gs
  induction gs with
  | nil => intro rows _; simp [feedRowsOf, allSubRows, allRecRows]
  | cons p ps ih =>
    intro rows hwf
    have hwp := hwf p (List.mem_cons_self _ _)
    simp only [List.foldl_cons]
    rw [show pyStrip p.1 = p.1 from hwp.1.2]
    rw [if_neg hwp.1.1]
    rw [persist_subscribers_fold p.1 p.2.subscribers _
      (fun q hq => (hwp.2.2 q hq).1)
      (fun q hq => normalize_recent_ids_eq_self _ ((hwp.2.2 q hq).2).2.1
        ((hwp.2.2 q hq).2).2.2)]
    rw [ih _ (fun q hq => hwf q (List.mem_cons_of_mem _ hq))]
    simp [feedRowsOf, allSubRows, allRecRows]

/-! ### load_data reassembles a wellformed graph from its rows -/

theorem orString_idem (s d : String) : orString (orString s d) d = orString s d := by
  unfold orString
  by_cases h : s = ""
  · rw [if_pos h]
    split <;> simp_all
  · rw [if_neg h, if_neg h]

theorem load_feed_rows_fold (rs : List FeedRow) (acc : FeedsData)
    (hfresh : ∀ r ∈ rs, r.url ∉ acc.map Prod.fst)
    (hnd : (rs.map FeedRow.url).Nodup) :
    rs.foldl (fun acc r => dictInsert acc r.url ⟨r.title, r.description, []⟩) acc
      = acc ++ rs.map (fun r => (r.url, ⟨r.title, r.description, []⟩)) := by
  induction rs generalizing acc with
  | nil => simp
  | cons r rs' ih =>
    simp only [List.foldl_cons]
    rw [dictInsert_fresh _ _ _ (hfresh r (List.mem_cons_self _ _))]
    have hA : ∀ q ∈ rs', q.url ∉
        (acc ++ [(r.url, (⟨r.title, r.description, []⟩ : FeedEntry))]).map Prod.fst := by
      intro q hq
      rw [List.map_append, List.mem_append]
      rintro (h1 | h1)
      · exact hfresh q (List.mem_cons_of_mem _ hq) h1
      · have hqu : q.url = r.url := by simpa using h1
        have hnd' := List.nodup_cons.mp hnd
        exact hnd'.1 (hqu ▸ List.mem_map_of_mem FeedRow.url hq)
    have hih := ih (acc ++ [(r.url, (⟨r.title, r.description, []⟩ : FeedEntry))]) hA
      (List.nodup_cons.mp hnd).2
    rw [hih]
    simp

theorem load_sub_rows_one_feed (u T D : String) (subs : List (String × Subscription))
    (done : List (String × Subscription)) (pre post : FeedsData)
    (hpre : u ∉ pre.map Prod.fst) (hpost : u ∉ post.map Prod.fst)
    (hdone : ∀ q ∈ subs, q.1 ∉ done.map Prod.fst)
    (hnd : (subs.map Prod.fst).Nodup) :
    (subRowsOf u subs).foldl loadSubStep (pre ++ (u, ⟨T, D, done⟩) :: post)
      = pre ++ (u, ⟨T, D, done ++ subs.map (fun q =>
          (q.1, ⟨orString q.2.cron_expr FALLBACK_CRON, q.2.last_update, []⟩))⟩) :: post := by
  induction subs generalizing done with
  | nil => simp [subRowsOf]
  | cons q qs ih =>
    simp only [subRowsOf, List.map_cons, List.foldl_cons]
    rw [show loadSubStep (pre ++ (u, ⟨T, D, done⟩) :: post)
        ⟨u, q.1, orString q.2.cron_expr FALLBACK_CRON, q.2.last_update⟩
        = pre ++ (u, (⟨T, D, done ++
            [(q.1, ⟨orString q.2.cron_expr FALLBACK_CRON, q.2.last_update, []⟩)]⟩ :
              FeedEntry)) :: post by
      unfold loadSubStep
      simp only [lookupDict_middle pre post u (⟨T, D, done⟩ : FeedEntry) hpre]
      rw [orString_idem]
      rw [dictInsert_fresh done q.1 _ (hdone q (List.mem_cons_self _ _))]
      rw [dictInsert_middle pre post u _ _ hpre hpost]]
    have hA : ∀ q' ∈ qs, q'.1 ∉
        (done ++ [(q.1, (⟨orString q.2.cron_expr FALLBACK_CRON, q.2.last_update, []⟩ :
          Subscription))]).map Prod.fst := by
      intro q' hq'
      rw [List.map_append, List.mem_append]
      rintro (h1 | h1)
      · exact hdone q' (List.mem_cons_of_mem _ hq') h1
      · have : q'.1 = q.1 := by simpa using h1
        have hnd' := List.nodup_cons.mp hnd
        exact hnd'.1 (this ▸ List.mem_map_of_mem Prod.fst hq')
    have hqs := ih (done ++ [(q.1, (⟨orString q.2.cron_expr FALLBACK_CRON, q.2.last_update,
        []⟩ : Subscription))]) hA (List.nodup_cons.mp hnd).2
    simp only [subRowsOf] at hqs
    rw [hqs]
    simp


theorem load_sub_rows_fold (g : FeedsData) (pre : FeedsData)
    (hnd : (g.map Prod.fst).Nodup)
    (hpre : ∀ p ∈ g, p.1 ∉ pre.map Prod.fst)
    (hchnd : ∀ p ∈ g, (p.2.subscribers.map Prod.fst).Nodup) :
    (allSubRows g).foldl loadSubStep
        (pre ++ g.map (fun p => (p.1, (⟨p.2.title, p.2.description, []⟩ : FeedEntry))))
      = pre ++ g.map (fun p => (p.1, (⟨p.2.title, p.2.description,
          p.2.subscribers.map (fun q =>
            (q.1, (⟨orString q.2.cron_expr FALLBACK_CRON, q.2.last_update, []⟩ :
              Subscription)))⟩ : FeedEntry))) := by
  induction g generalizing pre with
  | nil => simp [allSubRows]
  | cons p ps ih =>
    have hnd' := List.nodup_cons.mp hnd
    have hkeys : ((ps.map (fun p => (p.1, (⟨p.2.title, p.2.description, []⟩ : FeedEntry)))).map
        Prod.fst) = ps.map Prod.fst := by
      rw [List.map_map]
      rfl
    simp only [allSubRows, List.flatMap_cons, List.foldl_append, List.map_cons]
    have h1 := load_sub_rows_one_feed p.1 p.2.title p.2.description p.2.subscribers []
      pre (ps.map (fun p => (p.1, (⟨p.2.title, p.2.description, []⟩ : FeedEntry))))
      (hpre p (List.mem_cons_self _ _))
      (by rw [hkeys]; exact hnd'.1)
      (by intro q hq; simp)
      (hchnd p (List.mem_cons_self _ _))
    rw [h1]
    have hshape : pre ++ (p.1, (⟨p.2.title, p.2.description,
        [] ++ p.2.subscribers.map (fun q =>
          (q.1, (⟨orString q.2.cron_expr FALLBACK_CRON, q.2.last_update, []⟩ :
            Subscription)))⟩ : FeedEntry))
        :: ps.map (fun p => (p.1, (⟨p.2.title, p.2.description, []⟩ : FeedEntry)))
      = (pre ++ [(p.1, (⟨p.2.title, p.2.description,
          p.2.subscribers.map (fun q =>
            (q.1, (⟨orString q.2.cron_expr FALLBACK_CRON, q.2.last_update, []⟩ :
              Subscription)))⟩ : FeedEntry))])
        ++ ps.map (fun p => (p.1, (⟨p.2.title, p.2.description, []⟩ : FeedEntry))) := by
      simp
    rw [hshape]
    have hih := ih (pre ++ [(p.1, (⟨p.2.title, p.2.description,
        p.2.subscribers.map (fun q =>
          (q.1, (⟨orString q.2.cron_expr FALLBACK_CRON, q.2.last_update, []⟩ :
            Subscription)))⟩ : FeedEntry))])
      hnd'.2
      (by
        intro q hq
        rw [List.map_append, List.mem_append]
        rintro (hm | hm)
        · exact hpre q (List.mem_cons_of_mem _ hq) hm
        · have : q.1 = p.1 := by simpa using hm
          exact hnd'.1 (this ▸ List.mem_map_of_mem Prod.fst hq))
      (fun q hq => hchnd q (List.mem_cons_of_mem _ hq))
    simp only [allSubRows] at hih
    rw [hih]
    simp

/-! ### The recent-id rows of one subscription come back in order -/

theorem enumFrom_rows_mem (u c : String) (ids : List String) (n : Nat) (r : RecRow)
    (h : r ∈ (List.enumFrom n ids).map (fun p => RecRow.mk u c p.1 p.2)) :
    n ≤ r.position ∧ r.url = u ∧ r.channel = c := by
  induction ids generalizing n with
  | nil => simp at h
  | cons x xs ih =>
    rw [show List.enumFrom n (x :: xs) = (n, x) :: List.enumFrom (n + 1) xs from rfl] at h
    rw [List.map_cons, List.mem_cons] at h
    rcases h with h | h
    · subst h
      exact ⟨Nat.le_refl n, rfl, rfl⟩
    · have := ih (n + 1) h
      exact ⟨Nat.le_of_succ_le this.1, this.2⟩

theorem enumFrom_rows_pairwise (u c : String) (ids : List String) (n : Nat) :
    ((List.enumFrom n ids).map (fun p => RecRow.mk u c p.1 p.2)).Pairwise
      (fun a b => a.position ≤ b.position) := by
  induction ids generalizing n with
  | nil => simp
  | cons x xs ih =>
    rw [show List.enumFrom n (x :: xs) = (n, x) :: List.enumFrom (n + 1) xs from rfl]
    rw [List.map_cons]
    refine List.Pairwise.cons ?_ (ih (n + 1))
    intro r hr
    have := (enumFrom_rows_mem u c xs (n + 1) r hr).1
    simpa using Nat.le_of_succ_le this

theorem sortByPos_sorted_id (l : List RecRow)
    (h : l.Pairwise (fun a b => a.position ≤ b.position)) : sortByPos l = l := by
  induction l with
  | nil => rfl
  | cons x xs ih =>
    have hx := List.pairwise_cons.mp h
    rw [show sortByPos (x :: xs) = insertByPos x (sortByPos xs) from rfl]
    rw [ih hx.2]
    cases xs with
    | nil => rfl
    | cons y ys =>
      rw [show insertByPos x (y :: ys)
          = if x.position ≤ y.position then x :: y :: ys else y :: insertByPos x ys from rfl]
      rw [if_pos (hx.1 y (List.mem_cons_self _ _))]

theorem enumRecentRows_map_item (u c : String) (ids : List String) :
    (enumRecentRows u c ids).map (fun r => r.item_id) = ids := by
  unfold enumRecentRows
  rw [List.map_map]
  exact List.enum_map_snd ids

theorem filter_enumRecentRows_own (u c : String) (ids : List String) :
    (enumRecentRows u c ids).filter (fun r => r.url == u && r.channel == c)
      = enumRecentRows u c ids := by
  refine List.filter_eq_self.mpr ?_
  intro r hr
  have := enumFrom_rows_mem u c ids 0 r hr
  rw [this.2.1, this.2.2]
  simp

theorem filter_enumRecentRows_other (u c u' c' : String) (ids : List String)
    (h : ¬(u' = u ∧ c' = c)) :
    (enumRecentRows u' c' ids).filter (fun r => r.url == u && r.channel == c) = [] := by
  refine List.filter_eq_nil_iff.mpr ?_
  intro r hr
  have hm := enumFrom_rows_mem u' c' ids 0 r hr
  rw [hm.2.1, hm.2.2]
  intro hcontra
  rw [Bool.and_eq_true, beq_iff_eq, beq_iff_eq] at hcontra
  exact h hcontra

theorem filter_recRowsOf_other (u c uk : String) (subs : List (String × Subscription))
    (h : uk ≠ u) :
    (recRowsOf uk subs).filter (fun r => r.url == u && r.channel == c) = [] := by
  induction subs with
  | nil => simp [recRowsOf]
  | cons q qs ih =>
    simp only [recRowsOf, List.flatMap_cons, List.filter_append]
    rw [filter_enumRecentRows_other u c uk q.1 _ (fun hc => h hc.1)]
    simp only [List.nil_append]
    simpa [recRowsOf] using ih

theorem filter_recRowsOf_not_channel (u c : String) (subs : List (String × Subscription))
    (h : c ∉ subs.map Prod.fst) :
    (recRowsOf u subs).filter (fun r => r.url == u && r.channel == c) = [] := by
  induction subs with
  | nil => simp [recRowsOf]
  | cons q qs ih =>
    have hq : q.1 ≠ c := fun he => h (he ▸ List.mem_map_of_mem Prod.fst (List.mem_cons_self q qs))
    simp only [recRowsOf, List.flatMap_cons, List.filter_append]
    rw [filter_enumRecentRows_other u c u q.1 _ (fun hc => hq hc.2)]
    rw [List.nil_append]
    have hih := ih (fun hm => h (List.mem_cons_of_mem _ hm))
    simp only [recRowsOf] at hih
    exact hih

theorem filter_recRowsOf_own (u c : String) (s : Subscription)
    (subs : List (String × Subscription))
    (hmem : (c, s) ∈ subs) (hnd : (subs.map Prod.fst).Nodup) :
    (recRowsOf u subs).filter (fun r => r.url == u && r.channel == c)
      = enumRecentRows u c s.recent_ids := by
  induction subs with
  | nil => simp at hmem
  | cons q qs ih =>
    have hnd' := List.nodup_cons.mp hnd
    simp only [recRowsOf, List.flatMap_cons, List.filter_append]
    rcases List.mem_cons.mp hmem with h | h
    · have hq1 : q.1 = c := by rw [← h]
      have hq2 : q.2 = s := by rw [← h]
      rw [hq1, hq2, filter_enumRecentRows_own]
      have hrest := filter_recRowsOf_not_channel u c qs (hq1 ▸ hnd'.1)
      simp only [recRowsOf] at hrest
      rw [hrest, List.append_nil]
    · have hc_in : c ∈ qs.map Prod.fst := by
        have := List.mem_map_of_mem Prod.fst h
        simpa using this
      have hq : q.1 ≠ c := fun he => hnd'.1 (he ▸ hc_in)
      rw [filter_enumRecentRows_other u c u q.1 _ (fun hc => hq hc.2)]
      rw [List.nil_append]
      have hih := ih h hnd'.2
      simp only [recRowsOf] at hih
      exact hih

theorem filter_allRecRows_not_url (u c : String) (g : FeedsData)
    (h : u ∉ g.map Prod.fst) :
    (allRecRows g).filter (fun r => r.url == u && r.channel == c) = [] := by
  induction g with
  | nil => simp [allRecRows]
  | cons p ps ih =>
    have hp : p.1 ≠ u := fun he =>
      h (he ▸ List.mem_map_of_mem Prod.fst (List.mem_cons_self p ps))
    simp only [allRecRows, List.flatMap_cons, List.filter_append]
    rw [filter_recRowsOf_other u c p.1 p.2.subscribers hp]
    rw [List.nil_append]
    have hih := ih (fun hm => h (List.mem_cons_of_mem _ hm))
    simp only [allRecRows] at hih
    exact hih

theorem filter_allRecRows (g : FeedsData) (u c : String) (f : FeedEntry) (s : Subscription)
    (hnd : (g.map Prod.fst).Nodup)
    (hfeed : (u, f) ∈ g) (hsub : (c, s) ∈ f.subscribers)
    (hchnd : ∀ p ∈ g, (p.2.subscribers.map Prod.fst).Nodup) :
    (allRecRows g).filter (fun r => r.url == u && r.channel == c)
      = enumRecentRows u c s.recent_ids := by
  induction g with
  | nil => simp at hfeed
  | cons p ps ih =>
    have hnd' := List.nodup_cons.mp hnd
    simp only [allRecRows, List.flatMap_cons, List.filter_append]
    rcases List.mem_cons.mp hfeed with h | h
    · have hp1 : p.1 = u := by rw [← h]
      have hp2 : p.2 = f := by rw [← h]
      have hown := filter_recRowsOf_own u c s f.subscribers hsub
        (hp2 ▸ hchnd p (List.mem_cons_self _ _))
      rw [hp1, hp2, hown]
      have hrest := filter_allRecRows_not_url u c ps (hp1 ▸ hnd'.1)
      simp only [allRecRows] at hrest
      rw [hrest, List.append_nil]
    · have hu_in : u ∈ ps.map Prod.fst := by
        have := List.mem_map_of_mem Prod.fst h
        simpa using this
      have hp : p.1 ≠ u := fun he => hnd'.1 (he ▸ hu_in)
      rw [filter_recRowsOf_other u c p.1 p.2.subscribers hp]
      rw [List.nil_append]
      have hih := ih hnd'.2 h (fun q hq => hchnd q (List.mem_cons_of_mem _ hq))
      simp only [allRecRows] at hih
      exact hih

theorem enumRecentRows_pairwise (u c : String) (ids : List String) :
    (enumRecentRows u c ids).Pairwise (fun a b => a.position ≤ b.position) :=
  enumFrom_rows_pairwise u c ids 0

theorem recentIdsFor_allRecRows (g : FeedsData) (u c : String) (f : FeedEntry)
    (s : Subscription)
    (hnd : (g.map Prod.fst).Nodup)
    (hfeed : (u, f) ∈ g) (hsub : (c, s) ∈ f.subscribers)
    (hchnd : ∀ p ∈ g, (p.2.subscribers.map Prod.fst).Nodup) :
    recentIdsFor (allRecRows g) u c = s.recent_ids := by
  unfold recentIdsFor
  rw [filter_allRecRows g u c f s hnd hfeed hsub hchnd]
  rw [sortByPos_sorted_id _ (enumRecentRows_pairwise u c s.recent_ids)]
  exact enumRecentRows_map_item u c s.recent_ids

theorem load_data_of_rows (g : FeedsData) (h : wfFeedsData g) :
    load_data ⟨feedRowsOf g, allSubRows g, allRecRows g⟩ = g := by
  unfold load_data
  dsimp only
  have hndfr : ((feedRowsOf g).map FeedRow.url).Nodup := by
    have : (feedRowsOf g).map FeedRow.url = g.map Prod.fst := by
      rw [feedRowsOf, List.map_map]
      rfl
    rw [this]
    exact h.1
  rw [load_feed_rows_fold (feedRowsOf g) [] (by simp) hndfr]
  rw [List.nil_append]
  rw [show (feedRowsOf g).map (fun r => (r.url, (⟨r.title, r.description, []⟩ : FeedEntry)))
      = g.map (fun p => (p.1, (⟨p.2.title, p.2.description, []⟩ : FeedEntry))) from by
    rw [feedRowsOf, List.map_map]
    rfl]
  have h2 := load_sub_rows_fold g [] h.1 (by simp) (fun p hp => (h.2 p hp).2.1)
  simp only [List.nil_append] at h2
  rw [h2]
  rw [List.map_map]
  have hcongr : ∀ p ∈ g,
      ((fun p => (p.1, (⟨p.2.title, p.2.description,
          p.2.subscribers.map (fun q =>
            (q.1, (⟨q.2.cron_expr, q.2.last_update,
              recentIdsFor (allRecRows g) p.1 q.1⟩ : Subscription)))⟩ : FeedEntry))) ∘
        (fun p => (p.1, (⟨p.2.title, p.2.description,
          p.2.subscribers.map (fun q =>
            (q.1, (⟨orString q.2.cron_expr FALLBACK_CRON, q.2.last_update, []⟩ :
              Subscription)))⟩ : FeedEntry)))) p = p := by
    intro p hp
    have hwp := h.2 p hp
    show (p.1, (⟨p.2.title, p.2.description,
        (p.2.subscribers.map (fun q =>
          (q.1, (⟨orString q.2.cron_expr FALLBACK_CRON, q.2.last_update, []⟩ :
            Subscription)))).map (fun q =>
          (q.1, (⟨q.2.cron_expr, q.2.last_update,
            recentIdsFor (allRecRows g) p.1 q.1⟩ : Subscription)))⟩ : FeedEntry)) = p
    have hsubs : (p.2.subscribers.map (fun q =>
        (q.1, (⟨orString q.2.cron_expr FALLBACK_CRON, q.2.last_update, []⟩ :
          Subscription)))).map (fun q =>
        (q.1, (⟨q.2.cron_expr, q.2.last_update,
          recentIdsFor (allRecRows g) p.1 q.1⟩ : Subscription)))
        = p.2.subscribers := by
      rw [List.map_map]
      conv_rhs => rw [← List.map_id p.2.subscribers]
      refine List.map_congr_left ?_
      intro q hq
      show (q.1, (⟨orString q.2.cron_expr FALLBACK_CRON, q.2.last_update,
        recentIdsFor (allRecRows g) p.1 q.1⟩ : Subscription)) = q
      rw [show orString q.2.cron_expr FALLBACK_CRON = q.2.cron_expr from by
        unfold orString
        rw [if_neg ((hwp.2.2 q hq).2.1)]]
      rw [recentIdsFor_allRecRows g p.1 q.1 p.2 q.2 h.1 hp hq
        (fun r hr => (h.2 r hr).2.1)]
    rw [hsubs]
  rw [List.map_congr_left hcongr]
  exact List.map_id g

/-- C6 counterexample: the one-feed graph with channel key " c" (non-empty,
valid cron, empty recent ids, so it meets the stated precondition) does not
round-trip: _persist_data strips the channel key, so reloading yields
channel "c" instead of " c" and the channel set changes. -/
theorem c6_counterexample :
    (save_load [("u", FeedEntry.mk "" ""
        [(" c", Subscription.mk "* * * * *" 0 [])])]).map
        (fun p => p.2.subscribers.map Prod.fst) = [["c"]] ∧
    ([("u", FeedEntry.mk "" "" [(" c", Subscription.mk "* * * * *" 0 [])])]).map
        (fun p => p.2.subscribers.map Prod.fst) = [[" c"]] ∧
    ([["c"]] : List (List String)) ≠ [[" c"]] := by
  decide

/-- C6 amended: save_data followed by _load_data is the identity on every
graph whose feed urls, channel keys and recent ids are non-empty and
strip-invariant, with unique urls, unique channels per feed, non-empty cron
expressions and deduplicated recent ids: the reloaded graph has the same
urls, channel sets, cron expressions, checkpoints and recent-id sequences
in the same enumeration order.  Keys or ids with surrounding whitespace are
stripped on persist, so they do not round-trip unchanged. -/
theorem c6_amended_roundtrip (g : FeedsData) (h : wfFeedsData g) : save_load g = g := by
  unfold save_load
  rw [normalize_data_eq_self g h, persist_data_rows g h]
  exact load_data_of_rows g h

/-- C6 amended witness: a concrete two-feed graph round-trips to itself. -/
theorem c6_roundtrip_witness :
    save_load [("u1", FeedEntry.mk "T" "D"
        [("c1", Subscription.mk "* * * * *" 5 ["a", "b"]),
         ("c2", Subscription.mk "0 * * * *" 0 [])]),
      ("u2", FeedEntry.mk "" "" [("c1", Subscription.mk "*/5 * * * *" (-2) ["x"])])]
      = [("u1", FeedEntry.mk "T" "D"
        [("c1", Subscription.mk "* * * * *" 5 ["a", "b"]),
         ("c2", Subscription.mk "0 * * * *" 0 [])]),
      ("u2", FeedEntry.mk "" "" [("c1", Subscription.mk "*/5 * * * *" (-2) ["x"])])] :=
  c6_amended_roundtrip _ (by decide)
